import Mathlib

/-!
Shallow embedding of `kettle.py`, a command-line utility for inspecting PDI
(kettle) configuration files.  Python strings are modelled as `String`
(field values, messages) or as `List Char` (`Line`, for the character-level
line splitting of the properties matcher).  Console output is modelled as a
list of `OutEvent`s; process termination is modelled by `Term`:
`Term.exit` is `sys.exit()` (process ends with a success status),
`Term.ret` is a normal function return, and `Term.crash` is an unhandled
Python exception (process ends with a non-success status).
-/

namespace Kettle

/-- Concatenation of a list of lists (the rows contributed by each
iteration of a Python loop or comprehension). -/
def listFlat : List (List α) → List α
  | [] => []
  | l :: ls => l ++ listFlat ls

/-- Effectful map over a list in the `Option` monad: `none` as soon as one
element fails, modelling a Python loop that raises on some iteration. -/
def optMapM (f : α → Option β) : List α → Option (List β)
  | [] => some []
  | x :: xs =>
    match f x, optMapM f xs with
    | some y, some ys => some (y :: ys)
    | _, _ => none

/-- One line of a text file as Python's file iteration yields it
(trailing newline included, except possibly on the last line). -/
abbrev Line := List Char

/-- Python `line.strip("\n")`: remove every leading and trailing newline
character. -/
def pyStripNl (l : Line) : Line :=
  ((l.dropWhile (fun c => c = '\n')).reverse.dropWhile (fun c => c = '\n')).reverse

/-- Python `s.split(sep)` for a single-character separator: split at every
occurrence, keeping empty pieces (`"a=b".split("=") == ["a","b"]`,
`"ab".split("=") == ["ab"]`, `"=".split("=") == ["",""]`). -/
def splitChar (c : Char) : Line → List Line
  | [] => [[]]
  | x :: xs =>
    if x = c then [] :: splitChar c xs
    else
      match splitChar c xs with
      | [] => [[x]]
      | y :: ys => (x :: y) :: ys

/-- Python `s.replace(old, new)`: replace every non-overlapping occurrence
of `pat`, scanning left to right.  The fuel argument (instantiated with the
input length) only makes the recursion structural; each step consumes at
least one input character, so the fuel never runs out on the real calls. -/
def pyReplaceAux (pat rep : List Char) : Nat → List Char → List Char
  | _, [] => []
  | 0, l => l
  | fuel + 1, x :: xs =>
    if pat ≠ [] ∧ pat.isPrefixOf (x :: xs) then
      rep ++ pyReplaceAux pat rep fuel (xs.drop (pat.length - 1))
    else
      x :: pyReplaceAux pat rep fuel xs

/-- Python `s.replace(old, new)` on `String`s. -/
def pyReplace (s pat rep : String) : String :=
  String.mk (pyReplaceAux pat.toList rep.toList s.length s.toList)

/-- Python `s.startswith(pre)` on `String`s, computed on the character
lists. -/
def pyStartsWith (s pre : String) : Bool := pre.toList.isPrefixOf s.toList

/-- The `fail_style` rich style of `kettle.py`. -/
def fail_style : String := "bold white on red"

/-- The `gain_style` rich style of `kettle.py`. -/
def gain_style : String := "bold white on green"

/-- One observable console output of a run: a styled message
(`console.print(text, style=...)`), a plain `print`, or one of the three
rendered rich tables (kettle-properties rows, connection-name rows,
connection-detail rows). -/
inductive OutEvent where
  | msg (text : String) (style : String)
  | printRaw (text : String)
  | kettleTable (title : String) (rows : List (Line × Line))
  | connNameTable (rows : List String)
  | connDetailTable (title : String) (rows : List (String × String))
deriving DecidableEq

/-- How a modelled call ends: normal return, `sys.exit()` (success status),
or an unhandled exception (non-success status). -/
inductive Term where
  | ret
  | exit
  | crash
deriving DecidableEq

/-- The observable behaviour of a call: its console output in order, and how
it terminated. -/
structure Act where
  out : List OutEvent
  term : Term
deriving DecidableEq

/-- The `unable_to_locate` message of `kettle.py`. -/
def unable_to_locate (f : String) : OutEvent :=
  .msg ("UNABLE TO LOCATE " ++ f ++ "!") fail_style

/-- The `fail_message` helper of `kettle.py`. -/
def fail_message (m : String) : OutEvent := .msg m fail_style

/-- Embedding of `open_in_editor`: `os.system` never raises
`FileNotFoundError` (a shell command against a missing path still returns),
so the success message is always printed and `sys.exit()` always runs. -/
def open_in_editor (f : String) : Act :=
  ⟨[.msg ("Opening " ++ f ++ " in your text editor. . .") gain_style], .exit⟩

/-- Embedding of `show_contents`: print the whole file if it opens, else the
locate message; `sys.exit()` in both cases.  `content` is the file's text
when the file exists, `none` when `open` raises `FileNotFoundError`. -/
def show_contents (f : String) (content : Option String) : Act :=
  match content with
  | some s => ⟨[.printRaw s], .exit⟩
  | none => ⟨[unable_to_locate f], .exit⟩

/-- Embedding of `validate_file`: report existence, then `sys.exit()`. -/
def validate_file (f : String) (fexists : Bool) : Act :=
  if fexists then ⟨[.msg ("FILE FOUND AT " ++ f) gain_style], .exit⟩
  else ⟨[unable_to_locate f], .exit⟩

/-- The body of the loop of `show_kettle_matches` on one kept line:
`property_name, property_value = line.strip("\n").split("=")`.  The
two-target unpacking succeeds exactly when the split has two pieces, i.e.
when the stripped line contains exactly one `=`; otherwise Python raises
`ValueError`. -/
def parseKettleLine (l : Line) : Option (Line × Line) :=
  match splitChar '=' (pyStripNl l) with
  | [n, v] => some (n, v)
  | _ => none

/-- Embedding of `show_kettle_matches`.  `file` is the sequence of lines of
the properties file, or `none` when `open` raises `FileNotFoundError`
(caught: the locate message is printed and the function returns).  A kept
line that does not split into exactly two pieces raises `ValueError`, which
the `except FileNotFoundError` clause does not catch, so the call crashes
before `console.print(table)` produces any output. -/
def show_kettle_matches (f : String) (file : Option (List Line)) (matching : Line) : Act :=
  match file with
  | none => ⟨[unable_to_locate f], .ret⟩
  | some lines =>
    match optMapM parseKettleLine (lines.filter (fun l => matching.isPrefixOf l)) with
    | none => ⟨[], .crash⟩
    | some rows =>
      ⟨[.kettleTable ("Kettle Properties Containing " ++ String.mk matching) rows], .ret⟩

/-- A connection record: the flat field-name-to-text mapping of one
`connection` element, in document order (Python dicts preserve insertion
order). -/
abbrev Conn := List (String × String)

/-- Python `d.get(k)` on a connection record. -/
def dictGet (d : Conn) (k : String) : Option String :=
  (d.find? (fun p => p.1 == k)).map (fun p => p.2)

/-- Python `d[k] = v` on a connection record: overwrite in place when the
key is present, append otherwise. -/
def dictSet (d : Conn) (k v : String) : Conn :=
  if d.any (fun p => p.1 == k) then
    d.map (fun p => if p.1 == k then (k, v) else p)
  else d ++ [(k, v)]

/-- An XML document of the expected shape: a root element whose
`connection` children are flat field mappings, in document order. -/
structure SharedXml where
  connections : List Conn
deriving DecidableEq

/-- The value of `xmltodict.parse(raw)["sharedobjects"]["connection"]`:
xmltodict maps a repeated child tag to a list of mappings but collapses a
solitary child tag to the mapping itself, so a document with exactly one
`connection` element yields the single record, not a one-element list. -/
inductive ConnsVal where
  | one (c : Conn)
  | many (cs : List Conn)
deriving DecidableEq

/-- Modelled lookup `xml_data["sharedobjects"]["connection"]` on the parsed
document; `none` models the `KeyError` raised when the document has no
`connection` child. -/
def xmltodictConnections (doc : SharedXml) : Option ConnsVal :=
  match doc.connections with
  | [] => none
  | [c] => some (.one c)
  | cs => some (.many cs)

/-- The value returned by `read_shared_xml`: the parsed connections, or the
`None` that the `except FileNotFoundError` branch falls through to, or a
propagating `KeyError`. -/
inductive ReadResult where
  | conns (v : ConnsVal)
  | noneVal
  | keyError
deriving DecidableEq

/-- Embedding of `read_shared_xml`: the output it prints and the value it
returns.  `file` is the parsed document when the file exists, `none` when
`open` raises `FileNotFoundError` (caught: the locate message is printed
and the function returns `None`). -/
def read_shared_xml (f : String) (file : Option SharedXml) : List OutEvent × ReadResult :=
  match file with
  | none => ([unable_to_locate f], .noneVal)
  | some doc =>
    match xmltodictConnections doc with
    | none => ([], .keyError)
    | some v => ([], .conns v)

/-- The rows of the "Database Connections" table: one row per `name` field
of each record, in order. -/
def connNames (cs : List Conn) : List String :=
  listFlat (cs.map (fun c => c.filterMap (fun p => if p.1 == "name" then some p.2 else none)))

/-- Embedding of `show_all_connections`.  The missing-file branch is the
`filename.exists()` guard.  When the document has exactly one `connection`
element the parsed value is a single dict, so `for connection in
connections` iterates its keys and `connection.items()` on a key string
raises `AttributeError` (crash before any output); an empty dict just
yields an empty table. -/
def show_all_connections (f : String) (file : Option SharedXml) : Act :=
  match file with
  | none => ⟨[fail_message ("NO DATABASE CONNECTIONS FOUND IN " ++ f ++ "!")], .exit⟩
  | some doc =>
    match xmltodictConnections doc with
    | none => ⟨[], .crash⟩
    | some (.one c) =>
      if c.isEmpty then ⟨[.connNameTable []], .exit⟩ else ⟨[], .crash⟩
    | some (.many cs) => ⟨[.connNameTable (connNames cs)], .exit⟩

/-- The `hidden_keys` tuple of `show_connection_details`. -/
def hidden_keys : List String :=
  ["access", "attributes", "servername", "data_tablespace", "index_tablespace"]

/-- The body of the password-synthesis loop of `show_connection_details` on
one record: `connection.get("server")` is `None` when the field is missing,
and `None.startswith` raises `AttributeError` (`none` result); otherwise,
when the server value starts with the placeholder marker, the derived
`password` entry is stored on the record. -/
def synthPassword (c : Conn) : Option Conn :=
  match dictGet c "server" with
  | none => none
  | some s =>
    if pyStartsWith s "$\x7b" then
      some (dictSet c "password" (pyReplace s "NAME" "PASSWORD"))
    else some c

/-- The rows one record contributes to the detail-table comprehension:
`connection["name"]` raises `KeyError` when the record is nonempty and has
no `name` field (the condition is evaluated once per item); a record whose
name matches contributes its non-hidden fields, any other record
contributes nothing. -/
def connRows (db : String) (c : Conn) : Option (List (String × String)) :=
  if c.isEmpty then some []
  else
    match dictGet c "name" with
    | none => none
    | some n =>
      if db == n then some (c.filter (fun p => ! hidden_keys.contains p.1))
      else some []

/-- Embedding of `show_connection_details`.  With a missing file,
`read_shared_xml` prints the locate message and returns `None`, and the
following `for connection in connections` raises `TypeError` (crash).  With
exactly one `connection` element the parsed value is a single dict, whose
key strings make `connection.get("server")` raise `AttributeError` (crash)
unless the dict is empty.  Otherwise the password-synthesis loop runs over
every record, then the comprehension collects the rows; an empty row list
prints the not-found message, a nonempty one prints the detail table;
`sys.exit()` in both cases. -/
def show_connection_details (f : String) (file : Option SharedXml) (db : String) : Act :=
  match file with
  | none => ⟨[unable_to_locate f], .crash⟩
  | some doc =>
    match xmltodictConnections doc with
    | none => ⟨[], .crash⟩
    | some (.one c) =>
      if c.isEmpty then
        ⟨[fail_message ("DATABASE CONNECTION " ++ db ++ " NOT FOUND IN " ++ f ++ "!")], .exit⟩
      else ⟨[], .crash⟩
    | some (.many cs) =>
      match optMapM synthPassword cs with
      | none => ⟨[], .crash⟩
      | some cs' =>
        match optMapM (connRows db) cs' with
        | none => ⟨[], .crash⟩
        | some rss =>
          if (listFlat rss).isEmpty then
            ⟨[fail_message ("DATABASE CONNECTION " ++ db ++ " NOT FOUND IN " ++ f ++ "!")], .exit⟩
          else
            ⟨[.connDetailTable ("Database Connection Properties for " ++ db) (listFlat rss)],
              .exit⟩

/-- The act of a Python statement that prints nothing and returns. -/
def noopAct : Act := ⟨[], .ret⟩

/-- Sequential composition of two modelled statements: the second one runs
only when the first returned normally (neither `sys.exit()` nor an
unhandled exception). -/
def andThen (a b : Act) : Act :=
  match a.term with
  | .ret => ⟨a.out ++ b.out, b.term⟩
  | _ => a

/-- The text `open(f).read()` would return, from the file's lines. -/
def kettleFileContents (file : Option (List Line)) : Option String :=
  file.map (fun ls => String.mk (listFlat ls))

/-- Embedding of the `kettle` command body: the three flag-guarded actions
in order, then the default properties-matcher step, sequenced so that a
`sys.exit()` (or a crash) in an earlier step prevents every later step from
running. -/
def kettleCmd (f : String) (file : Option (List Line)) (matching : Line)
    (edit show_ showPath : Bool) : Act :=
  andThen (if edit then open_in_editor f else noopAct)
    (andThen (if show_ then show_contents f (kettleFileContents file) else noopAct)
      (andThen (if showPath then validate_file f file.isSome else noopAct)
        (show_kettle_matches f file matching)))

/-- Modelled from the spec: the properties filter as the specification words
it — keep the lines whose literal prefix equals the supplied string and
split each kept line on the FIRST `=` (name is everything before the first
`=` of the stripped line, value everything after it).  Used only to compare
the code's behaviour against the spec's description. -/
def specSplitFirstEq (l : Line) : Line × Line :=
  (l.takeWhile (fun c => c ≠ '='), (l.dropWhile (fun c => c ≠ '=')).drop 1)

/-- Modelled from the spec: the list of (name, value) pairs the spec says
the properties matcher extracts. -/
def specKettleMatches (lines : List Line) (matching : Line) : List (Line × Line) :=
  (lines.filter (fun l => matching.isPrefixOf l)).map (fun l => specSplitFirstEq (pyStripNl l))

/-- The rows of the connection-detail table, as a function of the
post-synthesis records: non-hidden fields of the records whose name matches
the request, in order. -/
def matchedRows (db : String) (cs' : List Conn) : List (String × String) :=
  listFlat (cs'.map (fun c =>
    if dictGet c "name" = some db then c.filter (fun p => ! hidden_keys.contains p.1) else []))

end Kettle
namespace Kettle

theorem mem_listFlat {α : Type} {a : α} {ls : List (List α)} :
    a ∈ listFlat ls ↔ ∃ l ∈ ls, a ∈ l := by
  induction ls with
  | nil => simp [listFlat]
  | cons l ls ih => simp [listFlat, List.mem_append, ih]

theorem listFlat_eq_nil {α : Type} {ls : List (List α)} (h : ∀ l ∈ ls, l = []) :
    listFlat ls = [] := by
  induction ls with
  | nil => rfl
  | cons l ls ih =>
    rw [listFlat, h l (by simp), ih (fun x hx => h x (by simp [hx]))]
    rfl

theorem optMapM_eq_some_map {α β : Type} {f : α → Option β} {g : α → β} {xs : List α}
    (h : ∀ x ∈ xs, f x = some (g x)) : optMapM f xs = some (xs.map g) := by
  induction xs with
  | nil => rfl
  | cons x xs ih =>
    simp only [optMapM, h x (by simp), ih (fun y hy => h y (by simp [hy])), List.map_cons]

theorem optMapM_eq_none {α β : Type} {f : α → Option β} {xs : List α} {x : α}
    (hx : x ∈ xs) (hf : f x = none) : optMapM f xs = none := by
  induction xs with
  | nil => cases hx
  | cons y ys ih =>
    rcases List.mem_cons.mp hx with rfl | hmem
    · simp only [optMapM, hf]
    · cases hfy : f y with
      | none => simp only [optMapM, hfy]
      | some z => simp only [optMapM, hfy, ih hmem]

theorem mem_of_optMapM {α β : Type} {f : α → Option β} {xs : List α} {ys : List β}
    (h : optMapM f xs = some ys) {x : α} {y : β} (hx : x ∈ xs) (hf : f x = some y) :
    y ∈ ys := by
  induction xs generalizing ys with
  | nil => cases hx
  | cons z zs ih =>
    cases hfz : f z with
    | none =>
      simp only [optMapM, hfz] at h
      cases h
    | some w =>
      cases hrest : optMapM f zs with
      | none =>
        simp only [optMapM, hfz, hrest] at h
        cases h
      | some ws =>
        simp only [optMapM, hfz, hrest, Option.some.injEq] at h
        subst h
        rcases List.mem_cons.mp hx with rfl | hmem
        · rw [hfz] at hf
          cases hf
          exact List.mem_cons_self _ _
        · exact List.mem_cons_of_mem _ (ih hrest hmem)

theorem exists_of_optMapM_mem {α β : Type} {f : α → Option β} {xs : List α} {ys : List β}
    (h : optMapM f xs = some ys) {y : β} (hy : y ∈ ys) : ∃ x ∈ xs, f x = some y := by
  induction xs generalizing ys with
  | nil =>
    simp only [optMapM, Option.some.injEq] at h
    subst h
    cases hy
  | cons z zs ih =>
    cases hfz : f z with
    | none =>
      simp only [optMapM, hfz] at h
      cases h
    | some w =>
      cases hrest : optMapM f zs with
      | none =>
        simp only [optMapM, hfz, hrest] at h
        cases h
      | some ws =>
        simp only [optMapM, hfz, hrest, Option.some.injEq] at h
        subst h
        rcases List.mem_cons.mp hy with rfl | hmem
        · exact ⟨z, by simp, hfz⟩
        · obtain ⟨x, hxmem, hfx⟩ := ih hrest hmem
          exact ⟨x, by simp [hxmem], hfx⟩

theorem splitChar_of_not_mem {c : Char} {l : Line} (h : ∀ x ∈ l, x ≠ c) :
    splitChar c l = [l] := by
  induction l with
  | nil => rfl
  | cons x xs ih =>
    rw [splitChar, if_neg (h x (by simp)), ih (fun y hy => h y (by simp [hy]))]

theorem splitChar_append {c : Char} {a : Line} (b : Line) (h : ∀ x ∈ a, x ≠ c) :
    splitChar c (a ++ c :: b) = a :: splitChar c b := by
  induction a with
  | nil => simp [splitChar]
  | cons x xs ih =>
    rw [List.cons_append, splitChar, if_neg (h x (by simp)),
      ih (fun y hy => h y (by simp [hy]))]

theorem takeWhile_ne_append {c : Char} {a : Line} (b : Line) (h : ∀ x ∈ a, x ≠ c) :
    (a ++ c :: b).takeWhile (fun x => x ≠ c) = a := by
  induction a with
  | nil => simp [List.takeWhile_cons]
  | cons x xs ih =>
    have hx : x ≠ c := h x (by simp)
    rw [List.cons_append, List.takeWhile_cons, if_pos (by simp [hx])]
    rw [ih (fun y hy => h y (by simp [hy]))]

theorem dropWhile_ne_append {c : Char} {a : Line} (b : Line) (h : ∀ x ∈ a, x ≠ c) :
    (a ++ c :: b).dropWhile (fun x => x ≠ c) = c :: b := by
  induction a with
  | nil => simp [List.dropWhile_cons]
  | cons x xs ih =>
    have hx : x ≠ c := h x (by simp)
    rw [List.cons_append, List.dropWhile_cons, if_pos (by simp [hx])]
    exact ih (fun y hy => h y (by simp [hy]))

theorem specSplitFirstEq_of_decomp {a : Line} (b : Line) (ha : ∀ x ∈ a, x ≠ '=') :
    specSplitFirstEq (a ++ '=' :: b) = (a, b) := by
  rw [specSplitFirstEq, takeWhile_ne_append b ha, dropWhile_ne_append b ha]
  rfl

theorem parseKettleLine_of_decomp {l a b : Line}
    (hd : pyStripNl l = a ++ '=' :: b) (ha : ∀ x ∈ a, x ≠ '=') (hb : ∀ x ∈ b, x ≠ '=') :
    parseKettleLine l = some (a, b) := by
  rw [parseKettleLine, hd, splitChar_append b ha, splitChar_of_not_mem hb]

theorem parseKettleLine_eq_none {l : Line}
    (h : (splitChar '=' (pyStripNl l)).length ≠ 2) : parseKettleLine l = none := by
  rw [parseKettleLine]
  rcases hsp : splitChar '=' (pyStripNl l) with _ | ⟨x, _ | ⟨y, _ | ⟨z, t⟩⟩⟩
  · rfl
  · rfl
  · rw [hsp] at h
    simp at h
  · rfl

end Kettle
namespace Kettle

theorem mem_dictSet_self (d : Conn) (k v : String) : (k, v) ∈ dictSet d k v := by
  rw [dictSet]
  by_cases hany : d.any (fun p => p.1 == k)
  · rw [if_pos hany]
    obtain ⟨p, hp, hpk⟩ := List.any_eq_true.mp hany
    exact List.mem_map.mpr ⟨p, hp, by simp [hpk]⟩
  · rw [if_neg hany]
    exact List.mem_append_right _ (by simp)

theorem find?_updKey (d : Conn) {k k' : String} (v : String) (h : k' ≠ k) :
    (d.map (fun p => if p.1 == k then (k, v) else p)).find? (fun p => p.1 == k')
      = d.find? (fun p => p.1 == k') := by
  induction d with
  | nil => rfl
  | cons p d ih =>
    by_cases h1 : (p.1 == k) = true
    · have hp1 : p.1 = k := by simpa using h1
      have h2 : ((k : String) == k') = false := by simp [Ne.symm h]
      have h3 : (p.1 == k') = false := by simp [hp1, Ne.symm h]
      rw [List.map_cons, if_pos h1]
      simp only [List.find?_cons, h2, h3]
      exact ih
    · rw [List.map_cons, if_neg h1]
      by_cases h2 : (p.1 == k') = true
      · simp only [List.find?_cons, h2]
      · simp only [List.find?_cons, Bool.not_eq_true] at h2
        simp only [List.find?_cons, h2]
        exact ih

theorem find?_append_singleton (d : Conn) {k k' : String} (v : String) (h : k' ≠ k) :
    (d ++ [(k, v)]).find? (fun p => p.1 == k') = d.find? (fun p => p.1 == k') := by
  induction d with
  | nil =>
    have h2 : ((k : String) == k') = false := by simp [Ne.symm h]
    rw [List.nil_append]
    simp only [List.find?_cons, h2]
  | cons p d ih =>
    by_cases h2 : (p.1 == k') = true
    · rw [List.cons_append]
      simp only [List.find?_cons, h2]
    · simp only [Bool.not_eq_true] at h2
      rw [List.cons_append]
      simp only [List.find?_cons, h2]
      exact ih

theorem dictGet_dictSet_ne (d : Conn) {k k' : String} (v : String) (h : k' ≠ k) :
    dictGet (dictSet d k v) k' = dictGet d k' := by
  rw [dictGet, dictGet, dictSet]
  by_cases hany : d.any (fun p => p.1 == k)
  · rw [if_pos hany, find?_updKey d v h]
  · rw [if_neg hany, find?_append_singleton d v h]

theorem synthPassword_name {c c' : Conn} (h : synthPassword c = some c') :
    dictGet c' "name" = dictGet c "name" := by
  cases hs : dictGet c "server" with
  | none =>
    simp only [synthPassword, hs] at h
    exact Option.noConfusion h
  | some s =>
    simp only [synthPassword, hs] at h
    by_cases hp : pyStartsWith s "$\x7b" = true
    · rw [if_pos hp, Option.some.injEq] at h
      rw [← h, dictGet_dictSet_ne c _ (by decide)]
    · rw [if_neg hp, Option.some.injEq] at h
      rw [h]

theorem connRows_eq (db : String) (c : Conn) (h : c ≠ [] → (dictGet c "name").isSome) :
    connRows db c
      = some (if dictGet c "name" = some db
              then c.filter (fun p => ! hidden_keys.contains p.1) else []) := by
  cases c with
  | nil => simp [connRows, dictGet]
  | cons p d =>
    obtain ⟨n, hn⟩ := Option.isSome_iff_exists.mp (h (by simp))
    by_cases hdb : db = n
    · subst hdb
      simp [connRows, hn]
    · have hnd : ¬n = db := fun hh => hdb hh.symm
      simp [connRows, hn, hdb, hnd]

theorem show_connection_details_many (fname db : String) (a b : Conn) (t : List Conn)
    (cs' : List Conn)
    (hsynth : optMapM synthPassword (a :: b :: t) = some cs')
    (hname : ∀ c ∈ cs', c ≠ [] → (dictGet c "name").isSome) :
    show_connection_details fname (some ⟨a :: b :: t⟩) db =
      if (matchedRows db cs').isEmpty then
        ⟨[fail_message ("DATABASE CONNECTION " ++ db ++ " NOT FOUND IN " ++ fname ++ "!")],
          Term.exit⟩
      else
        ⟨[OutEvent.connDetailTable ("Database Connection Properties for " ++ db)
            (matchedRows db cs')], Term.exit⟩ := by
  have hrows : optMapM (connRows db) cs'
      = some (cs'.map (fun c =>
          if dictGet c "name" = some db
          then c.filter (fun p => ! hidden_keys.contains p.1) else [])) :=
    optMapM_eq_some_map (fun c hc => connRows_eq db c (hname c hc))
  simp only [show_connection_details, xmltodictConnections, hsynth, hrows, matchedRows]

end Kettle
namespace Kettle

/-- Claim C1, counterexample: on a file whose single line matches the prefix
but contains two `=` characters, the matcher crashes with an unhandled
`ValueError` and emits no output at all, while the split-on-first-`=`
behaviour the claim describes would extract the pair ("STM_A", "b=c"). -/
theorem kettle_matches_multi_eq_counterexample :
    show_kettle_matches "kettle.properties" (some [("STM_A=b=c\n").toList]) ("STM").toList
        = ⟨[], Term.crash⟩
      ∧ specKettleMatches [("STM_A=b=c\n").toList] ("STM").toList
        = [(("STM_A").toList, ("b=c").toList)] :=
  ⟨by decide, by decide⟩

/-- Claim C1, amended: when every kept line contains exactly one `=`, the
properties matcher keeps exactly the lines whose literal prefix equals the
supplied string and renders the table of (name, value) pairs obtained by
splitting each kept line at that unique (hence first) `=`, newlines
stripped — the rows coincide with the spec-modelled `specKettleMatches`. -/
theorem kettle_matches_exact_split (f : String) (lines : List Line) (m : Line)
    (h : ∀ l ∈ lines, m.isPrefixOf l = true →
      ∃ a b, pyStripNl l = a ++ '=' :: b ∧ (∀ x ∈ a, x ≠ '=') ∧ (∀ x ∈ b, x ≠ '=')) :
    show_kettle_matches f (some lines) m =
      ⟨[OutEvent.kettleTable ("Kettle Properties Containing " ++ String.mk m)
          (specKettleMatches lines m)], Term.ret⟩ := by
  have hmap : optMapM parseKettleLine (lines.filter (fun l => m.isPrefixOf l))
      = some ((lines.filter (fun l => m.isPrefixOf l)).map
          (fun l => specSplitFirstEq (pyStripNl l))) := by
    apply optMapM_eq_some_map
    intro l hl
    rw [List.mem_filter] at hl
    obtain ⟨a, b, hd, ha, hb⟩ := h l hl.1 hl.2
    rw [parseKettleLine_of_decomp hd ha hb, hd, specSplitFirstEq_of_decomp b ha]
  simp only [show_kettle_matches, hmap, specKettleMatches]

/-- Claim C1, witness: on the file with lines `STM_DB=prod` and `OTHER=x`
and prefix `STM`, exactly the pair ("STM_DB", "prod") is extracted. -/
theorem kettle_matches_exact_split_witness :
    show_kettle_matches "kettle.properties"
        (some [("STM_DB=prod\n").toList, ("OTHER=x\n").toList]) ("STM").toList
      = ⟨[OutEvent.kettleTable ("Kettle Properties Containing " ++ String.mk (("STM").toList))
          (specKettleMatches [("STM_DB=prod\n").toList, ("OTHER=x\n").toList] ("STM").toList)],
          Term.ret⟩
    ∧ specKettleMatches [("STM_DB=prod\n").toList, ("OTHER=x\n").toList] ("STM").toList
      = [(("STM_DB").toList, ("prod").toList)] := by
  constructor
  · apply kettle_matches_exact_split
    intro l hl hp
    rcases List.mem_cons.mp hl with rfl | hl2
    · exact ⟨("STM_DB").toList, ("prod").toList, by decide, by decide, by decide⟩
    · rcases List.mem_cons.mp hl2 with rfl | hl3
      · exact absurd hp (by decide)
      · cases hl3
  · decide

/-- Claim C2, counterexample: with an existing file and a prefix matching no
line, the matcher prints exactly one event — an empty two-column table —
and no message of any kind, contradicting the claimed "no lines found"
message. -/
theorem kettle_matches_no_match_counterexample :
    show_kettle_matches "kettle.properties" (some [("OTHER=x\n").toList]) ("ZZZ").toList
      = ⟨[OutEvent.kettleTable "Kettle Properties Containing ZZZ" []], Term.ret⟩ := by
  decide

/-- Claim C2, amended: for every existing properties file and prefix that
matches no line, the matcher renders an empty table (title and headers,
zero rows) and returns; no "no lines found" message exists in the code. -/
theorem kettle_matches_empty_table (f : String) (lines : List Line) (m : Line)
    (h : ∀ l ∈ lines, m.isPrefixOf l = false) :
    show_kettle_matches f (some lines) m =
      ⟨[OutEvent.kettleTable ("Kettle Properties Containing " ++ String.mk m) []],
        Term.ret⟩ := by
  have hf : lines.filter (fun l => m.isPrefixOf l) = [] := by
    rw [List.filter_eq_nil_iff]
    intro l hl
    simp [h l hl]
  simp only [show_kettle_matches, hf, optMapM]

/-- Claim C2, witness for the amended statement at a concrete file. -/
theorem kettle_matches_empty_table_witness :
    show_kettle_matches "kettle.properties" (some [("STM_DB=prod\n").toList]) ("QQ").toList
      = ⟨[OutEvent.kettleTable ("Kettle Properties Containing " ++ String.mk (("QQ").toList)) []],
          Term.ret⟩ := by
  apply kettle_matches_empty_table
  intro l hl
  rcases List.mem_cons.mp hl with rfl | hl2
  · decide
  · cases hl2

/-- Claim C9: a matched line whose stripped text does not split into exactly
two pieces at `=` (zero or several `=` characters) makes the matcher raise
an unhandled unpacking error: the call crashes and produces neither table
nor message. -/
theorem kettle_matches_bad_line (f : String) (lines : List Line) (m : Line)
    (h : ∃ l, l ∈ lines ∧ m.isPrefixOf l = true ∧ (splitChar '=' (pyStripNl l)).length ≠ 2) :
    show_kettle_matches f (some lines) m = ⟨[], Term.crash⟩ := by
  obtain ⟨l, hl, hpre, hlen⟩ := h
  have hnone : optMapM parseKettleLine (lines.filter (fun l => m.isPrefixOf l)) = none :=
    optMapM_eq_none (List.mem_filter.mpr ⟨hl, hpre⟩) (parseKettleLine_eq_none hlen)
  simp only [show_kettle_matches, hnone]

/-- Claim C9, witness: the line `STM_AB` (no `=`) matches prefix `STM` and
crashes the matcher. -/
theorem kettle_matches_bad_line_witness :
    show_kettle_matches "kettle.properties" (some [("STM_AB\n").toList]) ("STM").toList
      = ⟨[], Term.crash⟩ :=
  kettle_matches_bad_line _ _ _ ⟨("STM_AB\n").toList, by decide, by decide, by decide⟩

/-- Claim C10: on a missing shared file, connections detail mode prints the
standard locate message (from `read_shared_xml`, which then returns `None`)
and crashes with an unhandled `TypeError` when iterating the `None`, rather
than exiting cleanly. -/
theorem connection_details_missing_file (fname db : String) :
    show_connection_details fname none db
      = ⟨[OutEvent.msg ("UNABLE TO LOCATE " ++ fname ++ "!") fail_style], Term.crash⟩ := rfl

/-- Claim C5: evaluation at the failing input.  A document with exactly one
`connection` element is decoded to the single mapping itself (xmltodict
collapses a solitary child), not to a one-element list as the function's
declared return type promises, and both list mode and detail mode then
crash on it. -/
theorem read_shared_xml_single_connection :
    read_shared_xml "shared.xml" (some ⟨[[("name", "A"), ("server", "x")]]⟩)
        = ([], ReadResult.conns (ConnsVal.one [("name", "A"), ("server", "x")]))
      ∧ (show_all_connections "shared.xml" (some ⟨[[("name", "A"), ("server", "x")]]⟩)).term
        = Term.crash
      ∧ (show_connection_details "shared.xml"
          (some ⟨[[("name", "A"), ("server", "x")]]⟩) "A").term = Term.crash :=
  ⟨by decide, by decide, by decide⟩

end Kettle
namespace Kettle

/-- Claim C3: in detail mode, a record whose `server` value begins with the
placeholder marker gets a synthetic `password` entry whose value is the
server value with `NAME` substituted by `PASSWORD`, and when that record's
name is the requested one the pair is displayed in the detail table. -/
theorem connection_details_password (fname db s : String) (cs cs' : List Conn) (c : Conn)
    (h2 : 2 ≤ cs.length)
    (hsynth : optMapM synthPassword cs = some cs')
    (hname : ∀ c' ∈ cs', c' ≠ [] → (dictGet c' "name").isSome)
    (hc : c ∈ cs)
    (hserver : dictGet c "server" = some s)
    (hpre : pyStartsWith s "$\x7b" = true)
    (hdb : dictGet c "name" = some db) :
    ∃ rows, (show_connection_details fname (some ⟨cs⟩) db).out
        = [OutEvent.connDetailTable ("Database Connection Properties for " ++ db) rows]
      ∧ ("password", pyReplace s "NAME" "PASSWORD") ∈ rows := by
  rcases cs with _ | ⟨a, cs⟩
  · exact absurd h2 (by simp)
  rcases cs with _ | ⟨b, t⟩
  · exact absurd h2 (by simp)
  have hcp : synthPassword c = some (dictSet c "password" (pyReplace s "NAME" "PASSWORD")) := by
    simp [synthPassword, hserver, hpre]
  have hcmem : dictSet c "password" (pyReplace s "NAME" "PASSWORD") ∈ cs' :=
    mem_of_optMapM hsynth hc hcp
  have hname' : dictGet (dictSet c "password" (pyReplace s "NAME" "PASSWORD")) "name"
      = some db := by
    rw [dictGet_dictSet_ne c _ (by decide)]
    exact hdb
  have hpair : ("password", pyReplace s "NAME" "PASSWORD")
      ∈ dictSet c "password" (pyReplace s "NAME" "PASSWORD") := mem_dictSet_self c _ _
  have hrowmem : ("password", pyReplace s "NAME" "PASSWORD") ∈ matchedRows db cs' := by
    simp only [matchedRows]
    apply mem_listFlat.mpr
    refine ⟨_, List.mem_map.mpr ⟨_, hcmem, rfl⟩, ?_⟩
    rw [if_pos hname']
    refine List.mem_filter.mpr ⟨hpair, ?_⟩
    show (!hidden_keys.contains "password") = true
    decide
  have hne : ¬(matchedRows db cs').isEmpty = true := by
    cases hmr : matchedRows db cs' with
    | nil =>
      rw [hmr] at hrowmem
      cases hrowmem
    | cons q qs => simp
  rw [show_connection_details_many fname db a b t cs' hsynth hname, if_neg hne]
  exact ⟨matchedRows db cs', rfl, hrowmem⟩

/-- Claim C3, witness: a connection `DB1` with server `${DB1_NAME}` and no
explicit password gets a displayed `password` row valued `${DB1_PASSWORD}`. -/
theorem connection_details_password_witness :
    ∃ rows, (show_connection_details "shared.xml"
        (some ⟨[[("name", "DB1"), ("server", "$\x7bDB1_NAME\x7d")],
                [("name", "DB2"), ("server", "local")]]⟩) "DB1").out
        = [OutEvent.connDetailTable "Database Connection Properties for DB1" rows]
      ∧ ("password", "$\x7bDB1_PASSWORD\x7d") ∈ rows := by
  have h := connection_details_password "shared.xml" "DB1" "$\x7bDB1_NAME\x7d"
    [[("name", "DB1"), ("server", "$\x7bDB1_NAME\x7d")], [("name", "DB2"), ("server", "local")]]
    [[("name", "DB1"), ("server", "$\x7bDB1_NAME\x7d"), ("password", "$\x7bDB1_PASSWORD\x7d")],
     [("name", "DB2"), ("server", "local")]]
    [("name", "DB1"), ("server", "$\x7bDB1_NAME\x7d")]
    (by decide) (by decide) (by decide) (by decide) (by decide) (by decide) (by decide)
  have hrepl : pyReplace "$\x7bDB1_NAME\x7d" "NAME" "PASSWORD" = "$\x7bDB1_PASSWORD\x7d" := by
    decide
  have ht : ("Database Connection Properties for " ++ "DB1" : String)
      = "Database Connection Properties for DB1" := rfl
  rw [hrepl, ht] at h
  exact h

/-- Claim C4: whenever detail mode renders a table, the rows contain every
non-hidden field of every record (after password synthesis) whose name
equals the request, and no row carries a hidden field name. -/
theorem connection_details_fields (fname db : String) (cs cs' : List Conn)
    (h2 : 2 ≤ cs.length)
    (hsynth : optMapM synthPassword cs = some cs')
    (hname : ∀ c' ∈ cs', c' ≠ [] → (dictGet c' "name").isSome) :
    ∀ title rows, (show_connection_details fname (some ⟨cs⟩) db).out
        = [OutEvent.connDetailTable title rows] →
      (∀ c' ∈ cs', dictGet c' "name" = some db →
        ∀ p ∈ c', hidden_keys.contains p.1 = false → p ∈ rows)
      ∧ (∀ p ∈ rows, hidden_keys.contains p.1 = false) := by
  rcases cs with _ | ⟨a, cs⟩
  · exact absurd h2 (by simp)
  rcases cs with _ | ⟨b, t⟩
  · exact absurd h2 (by simp)
  intro title rows hout
  rw [show_connection_details_many fname db a b t cs' hsynth hname] at hout
  by_cases he : (matchedRows db cs').isEmpty = true
  · rw [if_pos he] at hout
    simp [fail_message] at hout
  · rw [if_neg he] at hout
    simp only [List.cons.injEq, OutEvent.connDetailTable.injEq, and_true] at hout
    obtain ⟨-, hreq⟩ := hout
    subst hreq
    constructor
    · intro c' hc' hnamec p hp hph
      simp only [matchedRows]
      apply mem_listFlat.mpr
      refine ⟨_, List.mem_map.mpr ⟨c', hc', rfl⟩, ?_⟩
      rw [if_pos hnamec]
      exact List.mem_filter.mpr ⟨hp, by simpa using hph⟩
    · intro p hp
      simp only [matchedRows] at hp
      obtain ⟨l, hl, hpl⟩ := mem_listFlat.mp hp
      obtain ⟨c', hc', rfl⟩ := List.mem_map.mp hl
      by_cases hn : dictGet c' "name" = some db
      · rw [if_pos hn] at hpl
        have hf := (List.mem_filter.mp hpl).2
        simpa using hf
      · rw [if_neg hn] at hpl
        cases hpl

/-- Claim C4, witness: on a matched connection carrying a hidden
`attributes` field, the rendered rows are exactly the non-hidden fields and
every row's field name avoids the hidden list. -/
theorem connection_details_fields_witness :
    ("name", "DB1") ∈ ([("name", "DB1"), ("server", "local")] : List (String × String))
    ∧ (∀ p ∈ ([("name", "DB1"), ("server", "local")] : List (String × String)),
        hidden_keys.contains p.1 = false) := by
  have h := connection_details_fields "shared.xml" "DB1"
    [[("name", "DB1"), ("server", "local"), ("attributes", "zzz")],
     [("name", "DB2"), ("server", "x")]]
    [[("name", "DB1"), ("server", "local"), ("attributes", "zzz")],
     [("name", "DB2"), ("server", "x")]]
    (by decide) (by decide) (by decide)
    "Database Connection Properties for DB1" [("name", "DB1"), ("server", "local")]
    (by decide)
  refine ⟨?_, h.2⟩
  exact h.1 [("name", "DB1"), ("server", "local"), ("attributes", "zzz")] (by decide)
    (by decide) ("name", "DB1") (by decide) (by decide)

/-- Claim C8: when no record's `name` equals the requested name, detail mode
prints exactly the not-found message naming the connection and the file,
and exits; no table or row event is emitted. -/
theorem connection_details_not_found (fname db : String) (cs cs' : List Conn)
    (h2 : 2 ≤ cs.length)
    (hsynth : optMapM synthPassword cs = some cs')
    (hname : ∀ c' ∈ cs', c' ≠ [] → (dictGet c' "name").isSome)
    (hmiss : ∀ c ∈ cs, ¬dictGet c "name" = some db) :
    show_connection_details fname (some ⟨cs⟩) db
      = ⟨[OutEvent.msg ("DATABASE CONNECTION " ++ db ++ " NOT FOUND IN " ++ fname ++ "!")
            fail_style], Term.exit⟩ := by
  rcases cs with _ | ⟨a, cs⟩
  · exact absurd h2 (by simp)
  rcases cs with _ | ⟨b, t⟩
  · exact absurd h2 (by simp)
  have hmiss' : ∀ c' ∈ cs', ¬dictGet c' "name" = some db := by
    intro c' hc'
    obtain ⟨c, hcmem, hfc⟩ := exists_of_optMapM_mem hsynth hc'
    rw [synthPassword_name hfc]
    exact hmiss c hcmem
  have hz : matchedRows db cs' = [] := by
    simp only [matchedRows]
    apply listFlat_eq_nil
    intro l hl
    obtain ⟨c', hc', rfl⟩ := List.mem_map.mp hl
    rw [if_neg (hmiss' c' hc')]
  rw [show_connection_details_many fname db a b t cs' hsynth hname, hz]
  rfl

/-- Claim C8, witness at a concrete two-connection file and name `ZZZ`. -/
theorem connection_details_not_found_witness :
    show_connection_details "shared.xml"
        (some ⟨[[("name", "DB1"), ("server", "x")], [("name", "DB2"), ("server", "y")]]⟩) "ZZZ"
      = ⟨[OutEvent.msg "DATABASE CONNECTION ZZZ NOT FOUND IN shared.xml!" fail_style],
          Term.exit⟩ := by
  have h := connection_details_not_found "shared.xml" "ZZZ"
    [[("name", "DB1"), ("server", "x")], [("name", "DB2"), ("server", "y")]]
    [[("name", "DB1"), ("server", "x")], [("name", "DB2"), ("server", "y")]]
    (by decide) (by decide) (by decide) (by decide)
  exact h

/-- Claim C6: whenever one of the three flag actions fires in the `kettle`
command, the invocation ends in `sys.exit()` with only that action's
behaviour: the properties-matcher table is never rendered, and the whole
run coincides with the first firing action. -/
theorem kettle_terminal_actions (f : String) (file : Option (List Line)) (m : Line)
    (edit show_ showPath : Bool) (h : edit = true ∨ show_ = true ∨ showPath = true) :
    (kettleCmd f file m edit show_ showPath).term = Term.exit
    ∧ (∀ title rows,
        OutEvent.kettleTable title rows ∉ (kettleCmd f file m edit show_ showPath).out)
    ∧ (kettleCmd f file m edit show_ showPath = open_in_editor f
       ∨ kettleCmd f file m edit show_ showPath = show_contents f (kettleFileContents file)
       ∨ kettleCmd f file m edit show_ showPath = validate_file f file.isSome) := by
  cases edit with
  | true =>
    refine ⟨rfl, ?_, Or.inl rfl⟩
    intro title rows
    simp [kettleCmd, andThen, open_in_editor]
  | false =>
    cases show_ with
    | true =>
      cases file with
      | none =>
        refine ⟨rfl, ?_, Or.inr (Or.inl rfl)⟩
        intro title rows
        simp [kettleCmd, andThen, noopAct, show_contents, kettleFileContents, unable_to_locate]
      | some ls =>
        refine ⟨rfl, ?_, Or.inr (Or.inl rfl)⟩
        intro title rows
        simp [kettleCmd, andThen, noopAct, show_contents, kettleFileContents]
    | false =>
      cases showPath with
      | true =>
        cases file with
        | none =>
          refine ⟨rfl, ?_, Or.inr (Or.inr rfl)⟩
          intro title rows
          simp [kettleCmd, andThen, noopAct, validate_file, unable_to_locate]
        | some ls =>
          refine ⟨rfl, ?_, Or.inr (Or.inr rfl)⟩
          intro title rows
          simp [kettleCmd, andThen, noopAct, validate_file]
      | false =>
        rcases h with h | h | h <;> cases h

/-- Claim C6, witness: with `--edit` set, the run is exactly the editor
action and ends in `sys.exit()`. -/
theorem kettle_terminal_actions_witness :
    (kettleCmd "kettle.properties" none [] true false false).term = Term.exit :=
  (kettle_terminal_actions "kettle.properties" none [] true false false (Or.inl rfl)).1

/-- Claim C7, counterexample: connections detail mode on a missing file ends
in an unhandled exception — a non-success exit status — contradicting the
claimed unconditional success of every terminal action. -/
theorem exit_status_counterexample :
    (show_connection_details "shared.xml" none "DB1").term = Term.crash := rfl

/-- Claim C7, amended: open, show-contents, validate and list mode always
end in `sys.exit()` (success) whether or not the file exists, and detail
mode also does on a parsed two-or-more-record file whether or not the
connection is found; but detail mode on a missing file ends in an unhandled
exception instead. -/
theorem exit_status_amended :
    (∀ f, (open_in_editor f).term = Term.exit)
    ∧ (∀ f c, (show_contents f c).term = Term.exit)
    ∧ (∀ f b, (validate_file f b).term = Term.exit)
    ∧ (∀ f, (show_all_connections f none).term = Term.exit)
    ∧ (∀ f a b t, (show_all_connections f (some ⟨a :: b :: t⟩)).term = Term.exit)
    ∧ (∀ f db, (show_connection_details f none db).term = Term.crash)
    ∧ (∀ f db cs cs', 2 ≤ cs.length → optMapM synthPassword cs = some cs' →
        (∀ c ∈ cs', c ≠ [] → (dictGet c "name").isSome) →
        (show_connection_details f (some ⟨cs⟩) db).term = Term.exit) := by
  refine ⟨fun f => rfl, fun f c => ?_, fun f b => ?_, fun f => rfl, fun f a b t => rfl,
    fun f db => rfl, fun f db cs cs' h2 hsynth hname => ?_⟩
  · cases c <;> rfl
  · cases b <;> rfl
  · rcases cs with _ | ⟨a, cs⟩
    · exact absurd h2 (by simp)
    rcases cs with _ | ⟨b, t⟩
    · exact absurd h2 (by simp)
    rw [show_connection_details_many f db a b t cs' hsynth hname]
    by_cases he : (matchedRows db cs').isEmpty = true
    · rw [if_pos he]
    · rw [if_neg he]

/-- Claim C7, witness for the amended statement: detail mode on an existing
well-formed file with an unmatched name still exits successfully. -/
theorem exit_status_amended_witness :
    (show_connection_details "shared.xml"
        (some ⟨[[("name", "ALPHA"), ("server", "h1")], [("name", "BETA"), ("server", "h2")]]⟩)
        "GAMMA").term = Term.exit :=
  exit_status_amended.2.2.2.2.2.2 "shared.xml" "GAMMA"
    [[("name", "ALPHA"), ("server", "h1")], [("name", "BETA"), ("server", "h2")]]
    [[("name", "ALPHA"), ("server", "h1")], [("name", "BETA"), ("server", "h2")]]
    (by decide) (by decide) (by decide)

end Kettle
